import Mathlib

/-!
Verification development for the gerritssh repository: a shallow embedding of
the option-compatibility model (gerritssh/internal/cmdoptions.py), the version
range matching (semantic_version subset used via gerritssh/gerritsite.py), the
Review data model (gerritssh/review.py) and the paginated query engine
(gerritssh/query.py), together with theorems settling the frozen claims.
-/

namespace Gerritssh

/-! ## Semantic versions and version ranges

Embeds the subset of the `semantic_version` package exercised by the
repository: `SV.Version` triples and `SV.Spec` strings, i.e. comma separated
comparator terms such as ">=2.6,<2.9".  A term's version may omit minor or
patch components (e.g. ">=2.4"); omitted components behave as 0 for the
orderings used here.  `SV.Spec('')` raises `ValueError`, hence parsing the
empty string yields `none`. -/

structure Version where
  major : Nat
  minor : Nat
  patch : Nat
deriving DecidableEq, Repr

inductive CmpOp
  | lt
  | le
  | eq
  | ge
  | gt
deriving DecidableEq, Repr

structure Comparator where
  op : CmpOp
  major : Nat
  minor : Nat
  patch : Nat
deriving DecidableEq, Repr

/-- Strict lexicographic order on version triples. -/
def tripLt (a b : Nat × Nat × Nat) : Bool :=
  decide (a.1 < b.1) ||
    (decide (a.1 = b.1) &&
      (decide (a.2.1 < b.2.1) ||
        (decide (a.2.1 = b.2.1) && decide (a.2.2 < b.2.2))))

/-- Does version `v` satisfy a single comparator term? -/
def compMatches (v : Version) (c : Comparator) : Bool :=
  let a := (v.major, v.minor, v.patch)
  let b := (c.major, c.minor, c.patch)
  match c.op with
  | .lt => tripLt a b
  | .le => !tripLt b a
  | .eq => decide (a = b)
  | .ge => !tripLt a b
  | .gt => tripLt b a

/-- Does version `v` satisfy every comparator of a parsed range
(`version in SV.Spec(...)`: pure conjunction of the terms)? -/
def specMatches (v : Version) (terms : List Comparator) : Bool :=
  terms.all (compMatches v)

/-- Split a character list on a separator character; mirrors
`str.split(sep)` (so the empty input yields one empty field). -/
def splitCharsAux (sep : Char) : List Char → List Char → List (List Char)
  | [], cur => [cur]
  | c :: cs, cur =>
    if c = sep then cur :: splitCharsAux sep cs []
    else splitCharsAux sep cs (cur ++ [c])

def splitCharsOn (sep : Char) (cs : List Char) : List (List Char) :=
  splitCharsAux sep cs []

def digit? (c : Char) : Option Nat :=
  if c.isDigit then some (c.toNat - 48) else none

def parseNatGo : List Char → Nat → Option Nat
  | [], acc => some acc
  | c :: cs, acc =>
    match digit? c with
    | none => none
    | some d => parseNatGo cs (acc * 10 + d)

def parseNat? : List Char → Option Nat
  | [] => none
  | c :: cs => parseNatGo (c :: cs) 0

/-- Parse a (possibly partial) version: "2", "2.6" or "2.6.1".
Omitted components default to 0. -/
def parseVerNums (cs : List Char) : Option (Nat × Nat × Nat) :=
  match (splitCharsOn '.' cs).mapM parseNat? with
  | some [a] => some (a, 0, 0)
  | some [a, b] => some (a, b, 0)
  | some [a, b, c] => some (a, b, c)
  | _ => none

/-- Parse one comparator term of a spec string; a bare version means `==`. -/
def parseTerm (cs : List Char) : Option Comparator :=
  match cs with
  | '>' :: '=' :: rest => (parseVerNums rest).map (fun t => ⟨.ge, t.1, t.2.1, t.2.2⟩)
  | '<' :: '=' :: rest => (parseVerNums rest).map (fun t => ⟨.le, t.1, t.2.1, t.2.2⟩)
  | '=' :: '=' :: rest => (parseVerNums rest).map (fun t => ⟨.eq, t.1, t.2.1, t.2.2⟩)
  | '>' :: rest => (parseVerNums rest).map (fun t => ⟨.gt, t.1, t.2.1, t.2.2⟩)
  | '<' :: rest => (parseVerNums rest).map (fun t => ⟨.lt, t.1, t.2.1, t.2.2⟩)
  | _ => (parseVerNums cs).map (fun t => ⟨.eq, t.1, t.2.1, t.2.2⟩)

/-- `SV.Spec(s)`: comma separated comparator terms.  The empty string is
rejected (`ValueError`), as are malformed terms. -/
def Spec.parse (s : String) : Option (List Comparator) :=
  match s.data with
  | [] => none
  | c :: cs => (splitCharsOn ',' (c :: cs)).mapM parseTerm

/-- `Site.version_in(constraint)` with an already-extracted site version:
`self.version in SV.Spec(constraint)`.  `none` models the `ValueError`
raised by `SV.Spec` on a malformed constraint. -/
def versionInB (v : Version) (constraint : String) : Option Bool :=
  (Spec.parse constraint).map (specMatches v)

/-- The per-option test used by `OptionSet.options_supported_in`
(`(not opt.spec) or version in SV.Spec(opt.spec)`): an absent/empty range
allows every version. -/
def rangeAllows (spec : String) (v : Version) : Option Bool :=
  if spec = "" then some true else versionInB v spec

/-! ## Python values and the `ParsedOptions.__dict__` model

Parsed option values as argparse produces them: `store_true` flags are
booleans, `count` flags are `None` or an integer, `store` options are `None`
or a string, `append` options are `None` or a list of strings.  `PyVal.none`
is Python's `None`; `truthy` is Python truthiness. -/

inductive PyVal
  | none
  | bool (b : Bool)
  | int (n : Nat)
  | str (s : String)
  | list (xs : List String)
deriving DecidableEq, Repr

def PyVal.truthy : PyVal → Bool
  | .none => false
  | .bool b => b
  | .int n => decide (n ≠ 0)
  | .str s => decide (s ≠ "")
  | .list xs => !xs.isEmpty

/-- Association-list lookup (first binding wins), as in a dict. -/
def alistGet? {α β : Type} [DecidableEq α] : List (α × β) → α → Option β
  | [], _ => Option.none
  | kv :: d, k => if kv.1 = k then some kv.2 else alistGet? d k

/-- Association-list update: replace the first binding of `k` in place, or
append a new binding (Python dict insertion-order semantics). -/
def alistSet {α β : Type} [DecidableEq α] : List (α × β) → α → β → List (α × β)
  | [], k, v => [(k, v)]
  | kv :: d, k, v => if kv.1 = k then (k, v) :: d else kv :: alistSet d k v

/-- Reading an attribute from the `__dict__` model; a missing key reads as
`None` (used only where the source uses `results.get(...)`). -/
def dictGet (d : List (String × PyVal)) (k : String) : PyVal :=
  (alistGet? d k).getD .none

/-! ## Option catalog (`OptionRepr`, `Option` builders, `OptionSet`) -/

inductive OptType
  | flag
  | choice
  | valued
deriving DecidableEq, Repr

/-- One option declaration, as produced by `Option.__check_args`: the dest
key (`long.replace('-','_')`), the wire flag strings (`args`), the action
family (`type` plus `repeatable`), the allowed `choices` (empty unless a
choice option) and the version `spec` (`""` models `None`). -/
structure OptionRepr where
  type : OptType
  key : String
  long : String
  short : Option String
  repeatable : Bool
  choices : List String
  spec : String
deriving DecidableEq, Repr

/-- `long.replace('-', '_')`. -/
def keyOf (long : String) : String :=
  ⟨long.data.map (fun c => if c = '-' then '_' else c)⟩

def shortOf (short : String) : Option String :=
  if short = "" then Option.none else some ("-" ++ short)

/-- `Option.flag(long, short, repeatable=..., spec=...)`. -/
def Option.flag (long short : String) (repeatable : Bool) (spec : String) : OptionRepr :=
  ⟨.flag, keyOf long, "--" ++ long, shortOf short, repeatable, [], spec⟩

/-- `Option.choice(long, short, choices=..., repeatable=..., spec=...)`. -/
def Option.choice (long short : String) (choices : List String)
    (repeatable : Bool) (spec : String) : OptionRepr :=
  ⟨.choice, keyOf long, "--" ++ long, shortOf short, repeatable, choices, spec⟩

/-- `Option.valued(long, short, repeatable=..., spec=...)`. -/
def Option.valued (long short : String) (repeatable : Bool) (spec : String) : OptionRepr :=
  ⟨.valued, keyOf long, "--" ++ long, shortOf short, repeatable, [], spec⟩

/-- The argparse default for an option's dest: `store_true` initializes to
`False`, while `count`, `store` and `append` initialize to `None`. -/
def OptionRepr.defaultVal (o : OptionRepr) : PyVal :=
  match o.type, o.repeatable with
  | .flag, false => .bool false
  | _, _ => .none

/-- The namespace `__dict__` right after `parser.parse_args` saw no tokens:
every declared dest is present at its default. -/
def initDict (catalog : List OptionRepr) : List (String × PyVal) :=
  catalog.map (fun o => (o.key, o.defaultVal))

/-- `ParsedOptions`: the option set it was parsed against plus its
`__dict__` (non-underscore attributes only). -/
structure ParsedOptions where
  optionSet : List OptionRepr
  dict : List (String × PyVal)
deriving DecidableEq, Repr

/-- Attribute assignment on a `ParsedOptions` instance.  The class defines
no `__setattr__`, so Python stores any name in the instance `__dict__`
unconditionally; names that are not catalog keys are simply new attributes. -/
def ParsedOptions.setattr (p : ParsedOptions) (name : String) (v : PyVal) : ParsedOptions :=
  ⟨p.optionSet, alistSet p.dict name v⟩

/-- The tokens one option contributes to `ParsedOptions.__str__`: a truthy
flag emits its long form once; a truthy valued/choice value emits
`(long, value)` pairs, one per element.  (A truthy non-string value on a
valued/choice option would make the source's `' '.join` raise `TypeError`;
no code path produces one.) -/
def tokensFor (opt : OptionRepr) (value : PyVal) : List String :=
  match opt.type with
  | .flag => if value.truthy then [opt.long] else []
  | _ =>
    if value.truthy then
      match value with
      | .str s => [opt.long, s]
      | .list xs => xs.flatMap (fun x => [opt.long, x])
      | _ => []
    else []

/-- The token list joined by `ParsedOptions.__str__`, in catalog
declaration order. -/
def ParsedOptions.renderTokens (p : ParsedOptions) : List String :=
  p.optionSet.flatMap (fun opt => tokensFor opt (dictGet p.dict opt.key))

/-- Space-interleaving of character lists (the content of `' '.join`). -/
def joinChars : List (List Char) → List Char
  | [] => []
  | [t] => t
  | t :: t2 :: rest => t ++ ' ' :: joinChars (t2 :: rest)

/-- `' '.join` over a token list. -/
def joinTokens (l : List String) : String :=
  ⟨joinChars (l.map (fun s => s.data))⟩

instance {ε α : Type} [DecidableEq ε] [DecidableEq α] : DecidableEq (Except ε α) :=
  fun x y =>
    match x, y with
    | .ok a, .ok b =>
      if h : a = b then .isTrue (h ▸ rfl)
      else .isFalse (fun hh => h (Except.ok.inj hh))
    | .error a, .error b =>
      if h : a = b then .isTrue (h ▸ rfl)
      else .isFalse (fun hh => h (Except.error.inj hh))
    | .ok _, .error _ => .isFalse (fun hh => Except.noConfusion hh)
    | .error _, .ok _ => .isFalse (fun hh => Except.noConfusion hh)

/-- `ParsedOptions.__str__`. -/
def ParsedOptions.render (p : ParsedOptions) : String :=
  joinTokens p.renderTokens

/-- `ParsedOptions.supported_in(version)`: scan the option set; an option is
checked only when its spec is non-empty *and* its current value is truthy;
the first checked option whose spec excludes `version` yields `False`.
`none` models the `ValueError` `SV.Spec` would raise on a malformed spec. -/
def supportedInGo (d : List (String × PyVal)) (v : Version) :
    List OptionRepr → Option Bool
  | [] => some true
  | opt :: rest =>
    if opt.spec ≠ "" && (dictGet d opt.key).truthy then
      match Spec.parse opt.spec with
      | Option.none => Option.none
      | some terms =>
        if specMatches v terms then supportedInGo d v rest else some false
    else supportedInGo d v rest

def ParsedOptions.supported_in (p : ParsedOptions) (v : Version) : Option Bool :=
  supportedInGo p.dict v p.optionSet

/-! ## `shlex.split` and the argparse subset used by `CmdOptionParser`

`CmdOptionParser.parse` runs `parser.parse_args(shlex.split(opt_str))`.
The shell splitter below covers the POSIX-mode constructs the option strings
of this repository use: whitespace separation and single/double quoting
(no backslash escapes).  The argparse model covers the configurations
`CmdOptionParser` installs: long/short flags given as separate tokens with
`store_true`, `count`, `store` and `append` actions and `choices`
validation; argparse reports all failures by exiting (`SystemExit`), modeled
as `ParseErr`. -/

inductive ParseErr
  | unclosedQuote
  | unrecognized (tok : String)
  | missingValue (flag : String)
  | invalidChoice (flag val : String)
deriving DecidableEq, Repr

def isShSpace (c : Char) : Bool :=
  c = ' ' || c = '\t' || c = '\n'

inductive ShMode
  | norm
  | sq
  | dq
deriving DecidableEq, Repr

/-- Shell word splitting; `cur = some t` means a token with content `t` is
open (so closing quotes can produce empty tokens). -/
def shlexGo : List Char → ShMode → Option (List Char) → List String →
    Except ParseErr (List String)
  | [], .norm, Option.none, acc => .ok acc
  | [], .norm, some t, acc => .ok (acc ++ [⟨t⟩])
  | [], .sq, _, _ => .error .unclosedQuote
  | [], .dq, _, _ => .error .unclosedQuote
  | c :: cs, .norm, cur, acc =>
    if c = '\'' then shlexGo cs .sq (some (cur.getD [])) acc
    else if c = '"' then shlexGo cs .dq (some (cur.getD [])) acc
    else if isShSpace c then
      match cur with
      | Option.none => shlexGo cs .norm Option.none acc
      | some t => shlexGo cs .norm Option.none (acc ++ [⟨t⟩])
    else shlexGo cs .norm (some (cur.getD [] ++ [c])) acc
  | c :: cs, .sq, cur, acc =>
    if c = '\'' then shlexGo cs .norm (some (cur.getD [])) acc
    else shlexGo cs .sq (some (cur.getD [] ++ [c])) acc
  | c :: cs, .dq, cur, acc =>
    if c = '"' then shlexGo cs .norm (some (cur.getD [])) acc
    else shlexGo cs .dq (some (cur.getD [] ++ [c])) acc

def shlexSplit (s : String) : Except ParseErr (List String) :=
  shlexGo s.data .norm Option.none []

/-- Does a token begin with `-` (argparse treats such a token as an option,
never as a value)? -/
def startsWithDash (s : String) : Bool :=
  match s.data with
  | '-' :: _ => true
  | _ => false

/-- Does token `t` select option `o` (its long or short flag string)? -/
def tokMatches (o : OptionRepr) (t : String) : Bool :=
  t = o.long || o.short = some t

/-- The running occurrence count of a `count`-action dest (`None` and other
non-integers read as 0). -/
def curCount : PyVal → Nat
  | .int m => m
  | _ => 0

/-- The running value list of an `append`-action dest (`None` and other
non-lists read as empty). -/
def curList : PyVal → List String
  | .list l => l
  | _ => []

/-- Process a token stream against the catalog, threading the namespace
`__dict__`.  Values are separate tokens; an option-like token (leading `-`)
is never consumed as a value. -/
def parseTokens (catalog : List OptionRepr) :
    List String → List (String × PyVal) → Except ParseErr (List (String × PyVal))
  | [], d => .ok d
  | t :: ts, d =>
    match catalog.find? (fun o => tokMatches o t) with
    | Option.none => .error (.unrecognized t)
    | some opt =>
      match opt.type with
      | .flag =>
        if opt.repeatable then
          parseTokens catalog ts
            (alistSet d opt.key (.int (curCount (dictGet d opt.key) + 1)))
        else
          parseTokens catalog ts (alistSet d opt.key (.bool true))
      | _ =>
        match ts with
        | [] => .error (.missingValue t)
        | v :: ts2 =>
          if startsWithDash v then .error (.missingValue t)
          else if opt.type = .choice && !(opt.choices.contains v) then
            .error (.invalidChoice t v)
          else if opt.repeatable then
            parseTokens catalog ts2
              (alistSet d opt.key (.list (curList (dictGet d opt.key) ++ [v])))
          else
            parseTokens catalog ts2 (alistSet d opt.key (.str v))

/-- `CmdOptionParser(option_set).parse(opt_str)`. -/
def CmdOptionParser.parse (catalog : List OptionRepr) (opt_str : String) :
    Except ParseErr ParsedOptions :=
  match shlexSplit opt_str with
  | .error e => .error e
  | .ok toks =>
    match parseTokens catalog toks (initDict catalog) with
    | .error e => .error e
    | .ok d => .ok ⟨catalog, d⟩

/-! ## Reviews and patch sets (gerritssh/review.py)

`Review(raw)` walks `raw['patchSets']` and `raw['currentPatchSet']` into a
dict keyed by the integer patchset number, then takes the maximum key.  The
JSON dicts are modeled by the fields the constructor and the claims touch:
`url` (its absence makes `urlsplit(self.url)` raise `AttributeError` through
`__getattr__`), the patchset containers, and `sortKey` (read by the query
engine).  A patchset's `number` is modeled as the integer `int(raw['number'])`
already yields; `revision` stands for the rest of a patchset's payload so
that distinct patchsets are distinguishable. -/

structure PatchsetRaw where
  number : Int
  revision : String
deriving DecidableEq, Repr

structure ReviewRaw where
  url : Option String
  patchSets : Option (List PatchsetRaw)
  currentPatchSet : Option PatchsetRaw
  sortKey : Option String
deriving DecidableEq, Repr

inductive ReviewErr
  | missingUrl
  | noPatchsets
deriving DecidableEq, Repr

/-- Keys of an association list. -/
def alistKeys {α β : Type} (d : List (α × β)) : List α :=
  d.map (fun kv => kv.1)

/-- `max(keys)` over a dict: `none` on an empty dict (Python raises
`ValueError: max() arg is an empty sequence`). -/
def maxKey : List (Int × PatchsetRaw) → Option Int
  | [] => Option.none
  | kv :: d =>
    match maxKey d with
    | Option.none => some kv.1
    | some m => some (max kv.1 m)

structure Review where
  raw : ReviewRaw
  patchsets : List (Int × PatchsetRaw)
  highestPatchSetNumber : Int
deriving DecidableEq, Repr

/-- The patchset dict built by `Review.__init__`: the `patchSets` entries
in order (later duplicates replacing earlier ones), then the
`currentPatchSet` entry replacing any entry of the same number. -/
def psDict (raw : ReviewRaw) : List (Int × PatchsetRaw) :=
  match raw.currentPatchSet with
  | Option.none =>
    (raw.patchSets.getD []).foldl (fun d p => alistSet d p.number p) []
  | some c =>
    alistSet ((raw.patchSets.getD []).foldl (fun d p => alistSet d p.number p) [])
      c.number c

/-- `Review.__init__`. -/
def Review.init (raw : ReviewRaw) : Except ReviewErr Review :=
  match raw.url with
  | Option.none => .error .missingUrl
  | some _ =>
    match maxKey (psDict raw) with
    | Option.none => .error .noPatchsets
    | some m => .ok ⟨raw, psDict raw, m⟩

/-- `Review.highest_patchset`: `self.patchsets[self.highest_patchset_number]`
(`none` models the `KeyError` that would occur on a missing key). -/
def Review.highest_patchset (r : Review) : Option PatchsetRaw :=
  alistGet? r.patchsets r.highestPatchSetNumber

/-! ## The Query command (gerritssh/query.py) -/

/-- `Query.__options`, in declaration order. -/
def queryOptions : List OptionRepr :=
  [Option.choice "format" "" ["json", "text"] false "",
   Option.flag "current-patchset" "" false "",
   Option.flag "patch-sets" "" false "",
   Option.flag "all-approvals" "" false "",
   Option.flag "files" "" false "",
   Option.flag "comments" "" false "",
   Option.flag "dependencies" "" false "",
   Option.flag "submit-records" "" false ">=2.5",
   Option.flag "commit-message" "" false ">=2.5",
   Option.flag "all-reviewers" "" false ">=2.9"]

/-- `Query.__supported_versions`. -/
def querySupportedVersions : String := ">=2.4"

/-- The option forcing in `Query.execute_on` (lines 110-115): six attribute
assignments on the parsed options, in source order.  Note that the first one
assigns the attribute `current_patch_set`, which is not a catalog key (the
catalog flag `current-patchset` has key `current_patchset`). -/
def forceOptions (p : ParsedOptions) : ParsedOptions :=
  (((((p.setattr "current_patch_set" (.bool true)).setattr
      "patch_sets" (.bool true)).setattr
      "all_approvals" (.bool true)).setattr
      "dependencies" (.bool true)).setattr
      "commit_message" (.bool true)).setattr
      "format" (.str "JSON")

/-- `'limit:{0}'.format(remaining) if self.__max_results else ''`. -/
def limitTok (maxResults : Nat) (remaining : Int) : String :=
  if maxResults ≠ 0 then "limit:" ++ toString remaining else ""

/-- `'resume_sortkey:{0}'.format(resume_key) if resume_key else ''`. -/
def resumeTok (resumeKey : String) : String :=
  if resumeKey ≠ "" then "resume_sortkey:" ++ resumeKey else ""

/-- The space-separated content of one page command.  The source builds
`' '.join(['query', limit, query, ' '.join([str(opts), resume])])`; this is
that string's token sequence (empty terms contribute empty tokens). -/
def pageTokens (maxResults : Nat) (remaining : Int) (queryStr : String)
    (opts : ParsedOptions) (resumeKey : String) : List String :=
  ["query", limitTok maxResults remaining, queryStr] ++
    opts.renderTokens ++ [resumeTok resumeKey]

inductive QueryErr
  | badSpec
  | commandNotSupported
  | optionsNotSupported
  | reviewError (e : ReviewErr)
  | missingSortKey
  | outOfFuel
deriving DecidableEq, Repr

/-- `[review.Review(l) for l in ...]`: construct a `Review` from every line
in order; the first constructor failure propagates. -/
def initAll : List ReviewRaw → Except QueryErr (List Review)
  | [] => .ok []
  | l :: ls =>
    match Review.init l with
    | .error e => .error (.reviewError e)
    | .ok r =>
      match initAll ls with
      | .error e => .error e
      | .ok rs => .ok (r :: rs)

/-- `partial_query`'s result conversion: with more than one decoded line,
every line except the last becomes a `Review`; otherwise no records. -/
def partialQuery (lines : List ReviewRaw) : Except QueryErr (List Review) :=
  if lines.length > 1 then initAll lines.dropLast
  else .ok []

structure EngineState where
  result : List Review
  resumeKey : String
  remaining : Int
  commands : List (List String)
deriving DecidableEq, Repr

/-- The `while` loop of `Query.execute_on`.  The transport is modeled as the
decoded JSON lines each successive page request receives (indexed by how
many requests were already issued); every issued page command is logged.
`fuel` bounds the number of iterations, `.outOfFuel` standing for a run that
is still looping. -/
def queryLoop (transport : Nat → List ReviewRaw) (maxResults : Nat)
    (queryStr : String) (opts : ParsedOptions) :
    Nat → EngineState → Except QueryErr EngineState
  | 0, _ => .error .outOfFuel
  | fuel + 1, st =>
    if maxResults = 0 || st.result.length < maxResults then
      match partialQuery (transport st.commands.length) with
      | .error e => .error e
      | .ok [] =>
        .ok ⟨st.result, st.resumeKey, st.remaining,
             st.commands ++ [pageTokens maxResults st.remaining queryStr opts st.resumeKey]⟩
      | .ok (r :: rs) =>
        match ((r :: rs).getLast (by simp)).raw.sortKey with
        | Option.none => .error .missingSortKey
        | some k =>
          queryLoop transport maxResults queryStr opts fuel
            ⟨st.result ++ (r :: rs), k,
             st.remaining - (r :: rs).length,
             st.commands ++ [pageTokens maxResults st.remaining queryStr opts st.resumeKey]⟩
    else .ok st

/-- The final truncation of `Query.execute_on`:
`result[:max] if (max and len(result) > max) else result`. -/
def truncateResults (maxResults : Nat) (result : List Review) : List Review :=
  if maxResults ≠ 0 && result.length > maxResults then
    result.take maxResults
  else result

/-- `Query.execute_on(the_site)` for a site at version `siteVersion` whose
transport answers the `i`-th issued page request with the decoded lines
`transport i`: version gate, option compatibility gate (on the options as
parsed, before any forcing), option forcing, page loop, truncation.
Returns the review list together with the issued page commands. -/
def Query.execute_on (opts0 : ParsedOptions) (queryStr : String)
    (maxResults : Nat) (siteVersion : Version)
    (transport : Nat → List ReviewRaw) (fuel : Nat) :
    Except QueryErr (List Review × List (List String)) :=
  match versionInB siteVersion querySupportedVersions with
  | Option.none => .error .badSpec
  | some false => .error .commandNotSupported
  | some true =>
    match opts0.supported_in siteVersion with
    | Option.none => .error .badSpec
    | some false => .error .optionsNotSupported
    | some true =>
      match queryLoop transport maxResults queryStr (forceOptions opts0) fuel
          ⟨[], "", Int.ofNat maxResults, []⟩ with
      | .error e => .error e
      | .ok st => .ok (truncateResults maxResults st.result, st.commands)

/-! ## Constructor models (`__init__` call protocol)

`SiteCommand.__init__(self, cmd_supported_in, option_set, option_str)`
declares three required positional parameters and no defaults.
`Query.__init__`, `BanCommit.__init__` and `ListGroups.__init__` each begin
with `super(...).__init__()` — a call providing zero of those three
arguments — so Python raises `TypeError` before any later statement runs.
`pythonBind required provided` models binding a call's positional arguments
to a function's required parameters. -/

inductive PyInitErr
  | typeError
  | systemExit (e : ParseErr)
  | valueError
deriving DecidableEq, Repr

def pythonBind (required provided : Nat) : Except PyInitErr Unit :=
  if provided < required then .error .typeError else .ok ()

/-- Required positional parameters of `SiteCommand.__init__` (beyond
`self`): `cmd_supported_in`, `option_set`, `option_str`. -/
def siteCommandInitRequired : Nat := 3

structure QueryObj where
  query : String
  maxResults : Nat
  parsedOptions : ParsedOptions
deriving Repr

/-- `Query.__init__(option_str, query, max_results)`. -/
def Query.init (option_str query : String) (max_results : Nat) :
    Except PyInitErr QueryObj :=
  match pythonBind siteCommandInitRequired 0 with
  | .error e => .error e
  | .ok _ =>
    match CmdOptionParser.parse queryOptions option_str with
    | .error e => .error (.systemExit e)
    | .ok p => .ok ⟨query, max_results, p⟩

/-- `BanCommit.__options`. -/
def banCommitOptions : List OptionRepr :=
  [Option.valued "reason" "" false ">=2.5"]

structure BanCommitObj where
  project : String
  commit : String
  parsedOptions : ParsedOptions
deriving Repr

/-- `BanCommit.__init__(project, commit, option_str)`. -/
def BanCommit.init (project commit option_str : String) :
    Except PyInitErr BanCommitObj :=
  match pythonBind siteCommandInitRequired 0 with
  | .error e => .error e
  | .ok _ =>
    match CmdOptionParser.parse banCommitOptions option_str with
    | .error e => .error (.systemExit e)
    | .ok p =>
      if project = "" || commit = "" then .error .valueError
      else .ok ⟨project, commit, p⟩

/-- `ListGroups.__options`. -/
def listGroupsOptions : List OptionRepr :=
  [Option.valued "project" "p" false "",
   Option.valued "user" "u" false "",
   Option.flag "visible-to-all" "" false "",
   Option.choice "type" "" ["internal", "system"] false "",
   Option.flag "verbose" "v" false ">=2.5",
   Option.flag "owned" "" false ">=2.6",
   Option.valued "q" "q" true ">=2.6"]

structure ListGroupsObj where
  parsedOptions : ParsedOptions
deriving Repr

/-- `ListGroups.__init__(option_str)`. -/
def ListGroups.init (option_str : String) : Except PyInitErr ListGroupsObj :=
  match pythonBind siteCommandInitRequired 0 with
  | .error e => .error e
  | .ok _ =>
    match CmdOptionParser.parse listGroupsOptions option_str with
    | .error e => .error (.systemExit e)
    | .ok p => .ok ⟨p⟩

/-! ## Concrete instances used by the claim theorems -/

/-- The parsed options of a `Query` built with the default `option_str=''`:
every dest at its argparse default. -/
def queryParsed0 : ParsedOptions :=
  ⟨queryOptions, initDict queryOptions⟩

/-- One decoded data record of page `i`: a well-formed review JSON line with
a sort key. -/
def dataRec (i : Nat) : ReviewRaw :=
  ⟨some "http://gerrit.example.com/1", some [⟨1, "rev1"⟩], Option.none,
   some ("k" ++ toString i)⟩

/-- The trailing statistics record (carries none of a review's fields). -/
def termRec : ReviewRaw :=
  ⟨Option.none, Option.none, Option.none, Option.none⟩

/-- Transport stub answering each of the first five page requests with
exactly one data record plus the terminator record, and the sixth with a
terminator-only page. -/
def stub5 (i : Nat) : List ReviewRaw :=
  if i < 5 then [dataRec i, termRec] else [termRec]

/-- Transport stub whose every response decodes to zero lines. -/
def emptyTransport : Nat → List ReviewRaw := fun _ => []

/-! ## Claim theorems -/

/-- C9: constructing a `Query` (likewise a `BanCommit` or a `ListGroups`)
raises `TypeError` for every combination of constructor arguments, because
each `__init__` invokes `SiteCommand.__init__` with no arguments while that
method requires the three positional parameters `cmd_supported_in`,
`option_set` and `option_str`. -/
theorem C9_constructors_raise_TypeError :
    (∀ (option_str query : String) (max_results : Nat),
      Query.init option_str query max_results = .error .typeError) ∧
    (∀ project commit option_str : String,
      BanCommit.init project commit option_str = .error .typeError) ∧
    (∀ option_str : String, ListGroups.init option_str = .error .typeError) :=
  ⟨fun _ _ _ => rfl, fun _ _ _ => rfl, fun _ => rfl⟩

/-- C7: version-range matching is a pure conjunction: an empty range
(absent spec) allows every version; a parsed range matches a version iff
every comparator term matches it independently; 2.7.0 satisfies
">=2.6,<2.9" while 2.9.0 does not. -/
theorem C7_version_range_conjunction :
    (∀ v : Version, rangeAllows "" v = some true) ∧
    (∀ (v : Version) (s : String) (terms : List Comparator),
      Spec.parse s = some terms →
        versionInB v s = some (specMatches v terms) ∧
          (specMatches v terms = true ↔ ∀ t ∈ terms, compMatches v t = true)) ∧
    versionInB ⟨2, 7, 0⟩ ">=2.6,<2.9" = some true ∧
    versionInB ⟨2, 9, 0⟩ ">=2.6,<2.9" = some false := by
  refine ⟨fun v => rfl, fun v s terms h => ⟨by simp [versionInB, h], ?_⟩,
    by decide, by decide⟩
  simp [specMatches, List.all_eq_true]

/-- Witness for C7: the conjunction characterization applied to the range
">=2.6,<2.9" at version 2.7.0. -/
theorem C7_witness :
    versionInB ⟨2, 7, 0⟩ ">=2.6,<2.9" =
        some (specMatches ⟨2, 7, 0⟩ [⟨.ge, 2, 6, 0⟩, ⟨.lt, 2, 9, 0⟩]) ∧
      (specMatches ⟨2, 7, 0⟩ [⟨.ge, 2, 6, 0⟩, ⟨.lt, 2, 9, 0⟩] = true ↔
        ∀ t ∈ [(⟨.ge, 2, 6, 0⟩ : Comparator), ⟨.lt, 2, 9, 0⟩],
          compMatches ⟨2, 7, 0⟩ t = true) :=
  C7_version_range_conjunction.2.1 ⟨2, 7, 0⟩ ">=2.6,<2.9"
    [⟨.ge, 2, 6, 0⟩, ⟨.lt, 2, 9, 0⟩] (by decide)

/-- C2 counterexample: against the five-pages-of-one-record stub, a query
with `max_results = 3` returns 3 records but issues three page requests
(one record arrives per page), not the two the claim asserts. -/
theorem C2_counterexample :
    (Query.execute_on queryParsed0 "status:open" 3 ⟨2, 9, 0⟩ stub5 10).map
        (fun r => (r.1.length, r.2.length)) = .ok (3, 3) ∧
      (3 : Nat) ≠ 2 :=
  ⟨by decide, by decide⟩

/-- C2 (amended): against the stub, `max_results = 0` yields exactly five
records (after six page requests) and `max_results = 3` yields exactly
three records after three page requests; whenever a maximum was requested
and the accumulated count exceeds it, the final truncation returns exactly
the first `max` records, so the result never exceeds the maximum. -/
theorem C2_pagination_termination :
    (Query.execute_on queryParsed0 "status:open" 0 ⟨2, 9, 0⟩ stub5 10).map
        (fun r => (r.1.length, r.2.length)) = .ok (5, 6) ∧
    (Query.execute_on queryParsed0 "status:open" 3 ⟨2, 9, 0⟩ stub5 10).map
        (fun r => (r.1.length, r.2.length)) = .ok (3, 3) ∧
    (∀ (m : Nat) (res : List Review), m ≠ 0 → res.length > m →
      truncateResults m res = res.take m) ∧
    (∀ (m : Nat) (res : List Review), m ≠ 0 →
      (truncateResults m res).length ≤ m) := by
  refine ⟨by decide, by decide, ?_, ?_⟩
  · intro m res hm hgt
    simp [truncateResults, hm, hgt]
  · intro m res hm
    by_cases hgt : res.length > m
    · simp [truncateResults, hm, hgt]
    · simp only [truncateResults]
      rw [if_neg (by simp [hgt])]
      omega

/-- Witness for C2: truncation applied to a three-element overshoot with a
requested maximum of 2. -/
theorem C2_witness :
    truncateResults 2 [⟨dataRec 0, [(1, ⟨1, "rev1"⟩)], 1⟩,
        ⟨dataRec 1, [(1, ⟨1, "rev1"⟩)], 1⟩, ⟨dataRec 2, [(1, ⟨1, "rev1"⟩)], 1⟩] =
      List.take 2 [⟨dataRec 0, [(1, ⟨1, "rev1"⟩)], 1⟩,
        ⟨dataRec 1, [(1, ⟨1, "rev1"⟩)], 1⟩, ⟨dataRec 2, [(1, ⟨1, "rev1"⟩)], 1⟩] ∧
    (truncateResults 2 [⟨dataRec 0, [(1, ⟨1, "rev1"⟩)], 1⟩,
        ⟨dataRec 1, [(1, ⟨1, "rev1"⟩)], 1⟩,
        ⟨dataRec 2, [(1, ⟨1, "rev1"⟩)], 1⟩]).length ≤ 2 :=
  ⟨C2_pagination_termination.2.2.1 2 _ (by decide) (by decide),
   C2_pagination_termination.2.2.2 2 _ (by decide)⟩

/-- C3: evidence for the missing current-patch-set flag.  With the default
(empty) caller option string, every page command contains the forced
`--patch-sets`, `--all-approvals`, `--dependencies`, `--commit-message` and
`--format JSON` terms, a `limit:N` term exactly when a maximum was
requested, and a `resume_sortkey:` term from the second page on — but *no*
current-patch-set flag at all: `execute_on` assigns the attribute
`current_patch_set`, while the catalog key of the `--current-patchset` flag
is `current_patchset`, so the assignment lands outside the catalog and the
flag renders as unset.  (The module docstring promises `--current-patch-set`
is always sent.) -/
theorem C3_page_command_flags :
    CmdOptionParser.parse queryOptions "" = .ok queryParsed0 ∧
    (Query.execute_on queryParsed0 "status:open" 0 ⟨2, 9, 0⟩ stub5 10).map
        (fun r => r.2.headD []) =
      .ok ["query", "", "status:open", "--format", "JSON", "--patch-sets",
           "--all-approvals", "--dependencies", "--commit-message", ""] ∧
    "--current-patch-set" ∉
      ["query", "", "status:open", "--format", "JSON", "--patch-sets",
       "--all-approvals", "--dependencies", "--commit-message", ""] ∧
    "--current-patchset" ∉
      ["query", "", "status:open", "--format", "JSON", "--patch-sets",
       "--all-approvals", "--dependencies", "--commit-message", ""] ∧
    (Query.execute_on queryParsed0 "status:open" 3 ⟨2, 9, 0⟩ stub5 10).map
        (fun r => r.2.headD []) =
      .ok ["query", "limit:3", "status:open", "--format", "JSON",
           "--patch-sets", "--all-approvals", "--dependencies",
           "--commit-message", ""] ∧
    (Query.execute_on queryParsed0 "status:open" 0 ⟨2, 9, 0⟩ stub5 10).map
        (fun r => r.2.getD 1 []) =
      .ok ["query", "", "status:open", "--format", "JSON", "--patch-sets",
           "--all-approvals", "--dependencies", "--commit-message",
           "resume_sortkey:k0"] :=
  ⟨by decide, by decide, by decide, by decide, by decide, by decide⟩

/-- Helper: first-binding association-list lookup after an update of the
same key. -/
theorem alistGet?_set_self {α β : Type} [DecidableEq α]
    (d : List (α × β)) (k : α) (v : β) :
    alistGet? (alistSet d k v) k = some v := by
  induction d with
  | nil => simp [alistSet, alistGet?]
  | cons kv rest ih =>
    by_cases h : kv.1 = k <;> simp [alistSet, alistGet?, h, ih]

/-- Helper: first-binding association-list lookup after an update of a
different key. -/
theorem alistGet?_set_ne {α β : Type} [DecidableEq α]
    (d : List (α × β)) (k k2 : α) (v : β) (h : k ≠ k2) :
    alistGet? (alistSet d k v) k2 = alistGet? d k2 := by
  induction d with
  | nil => simp [alistSet, alistGet?, h]
  | cons kv rest ih =>
    by_cases h1 : kv.1 = k
    · simp [alistSet, alistGet?, h1, h]
    · by_cases h2 : kv.1 = k2 <;>
        simp [alistSet, alistGet?, h1, h2, ih, Ne.symm h]

/-- Helper: `initAll` only fails with a review-construction error. -/
theorem initAll_error_review :
    ∀ (ls : List ReviewRaw) (e : QueryErr),
      initAll ls = .error e → ∃ re, e = .reviewError re := by
  intro ls
  induction ls with
  | nil => intro e h; simp [initAll] at h
  | cons x xs ih =>
    intro e h
    rw [initAll] at h
    cases hx : Review.init x with
    | error re =>
      rw [hx] at h
      exact ⟨re, (Except.error.inj h).symm⟩
    | ok r =>
      rw [hx] at h
      cases hxs : initAll xs with
      | error e2 =>
        rw [hxs] at h
        exact (Except.error.inj h) ▸ ih e2 hxs
      | ok rs => rw [hxs] at h; simp at h

/-- Helper: `partial_query` only fails with a review-construction error. -/
theorem partialQuery_error_review (ls : List ReviewRaw) (e : QueryErr) :
    partialQuery ls = .error e → ∃ re, e = .reviewError re := by
  unfold partialQuery
  split
  · exact initAll_error_review _ e
  · intro h; simp at h

/-- Helper: the page loop never produces the option-validation error, so an
`optionsNotSupported` outcome of `execute_on` can only come from the
pre-loop compatibility gate. -/
theorem queryLoop_no_options_error
    (tr : Nat → List ReviewRaw) (m : Nat) (qs : String) (o : ParsedOptions) :
    ∀ (fuel : Nat) (st : EngineState),
      queryLoop tr m qs o fuel st ≠ .error .optionsNotSupported := by
  intro fuel
  induction fuel with
  | zero => intro st h; simp [queryLoop] at h
  | succ n ih =>
    intro st h
    rw [queryLoop] at h
    by_cases hc : (m = 0 || st.result.length < m) = true
    · rw [if_pos hc] at h
      rcases hp : partialQuery (tr st.commands.length) with e | rs
      · rw [hp] at h
        simp at h
        obtain ⟨re, hre⟩ := partialQuery_error_review _ _ hp
        rw [h] at hre
        simp at hre
      · cases rs with
        | nil => rw [hp] at h; simp at h
        | cons r rs2 =>
          rw [hp] at h
          rcases hk : ((r :: rs2).getLast (by simp)).raw.sortKey with _ | k <;>
            simp [hk] at h
          exact ih _ h
    · rw [if_neg hc] at h
      simp at h

/-- C4 counterexample: against a server at version 2.4.7, a `Query` whose
caller set no options passes validation (the unset `commit-message` option,
gated ">=2.5", is skipped), is then force-set, and `execute_on` completes
normally, sending `--commit-message` on every page — it does not raise.
Had validation run after forcing, the forced selection would have failed. -/
theorem C4_counterexample :
    queryParsed0.supported_in ⟨2, 4, 7⟩ = some true ∧
    (forceOptions queryParsed0).supported_in ⟨2, 4, 7⟩ = some false ∧
    (Query.execute_on queryParsed0 "status:open" 0 ⟨2, 4, 7⟩ stub5 10).map
        (fun r => (r.1.length, r.2.headD [])) =
      .ok (5, ["query", "", "status:open", "--format", "JSON", "--patch-sets",
               "--all-approvals", "--dependencies", "--commit-message", ""]) :=
  ⟨by decide, by decide, by decide⟩

/-- C4 (amended): option-compatibility validation runs *before* the
command-internal forcing, on the options exactly as the caller parsed them:
`execute_on` fails with the option-scoped error precisely when the
*unforced* selection fails the check, and the forced options (including
`--commit-message`) are rendered into every page command that is built, so
a forced option whose range excludes the server version is silently sent
rather than rejected. -/
theorem C4_validation_before_forcing :
    (∀ (opts0 : ParsedOptions) (qs : String) (m : Nat) (v : Version)
        (tr : Nat → List ReviewRaw) (fuel : Nat),
      Query.execute_on opts0 qs m v tr fuel = .error .optionsNotSupported ↔
        versionInB v querySupportedVersions = some true ∧
          opts0.supported_in v = some false) ∧
    (∀ opts0 : ParsedOptions, opts0.optionSet = queryOptions →
      "--commit-message" ∈ (forceOptions opts0).renderTokens) ∧
    (∀ (opts0 : ParsedOptions) (m : Nat) (r : Int) (qs rk : String),
      opts0.optionSet = queryOptions →
      "--commit-message" ∈ pageTokens m r qs (forceOptions opts0) rk) := by
  have hmem : ∀ opts0 : ParsedOptions, opts0.optionSet = queryOptions →
      "--commit-message" ∈ (forceOptions opts0).renderTokens := by
    intro opts0 hset
    have hkey : dictGet (forceOptions opts0).dict "commit_message" = .bool true := by
      simp only [forceOptions, ParsedOptions.setattr, dictGet]
      rw [alistGet?_set_ne _ _ _ _ (by decide), alistGet?_set_self]
      rfl
    have hset2 : (forceOptions opts0).optionSet = queryOptions := by
      simp [forceOptions, ParsedOptions.setattr, hset]
    rw [ParsedOptions.renderTokens, hset2]
    have hkc : keyOf "commit-message" = "commit_message" := by decide
    simp only [queryOptions, List.flatMap_cons, List.flatMap_nil, Option.flag,
      Option.choice, hkc, tokensFor]
    rw [hkey]
    simp [PyVal.truthy, List.mem_append]
  refine ⟨?_, hmem, ?_⟩
  · intro opts0 qs m v tr fuel
    constructor
    · intro h
      rw [Query.execute_on] at h
      rcases hv : versionInB v querySupportedVersions with _ | b
      · rw [hv] at h; simp at h
      · rw [hv] at h
        cases b with
        | false => simp at h
        | true =>
          rcases hs : opts0.supported_in v with _ | b2
          · rw [hs] at h; simp at h
          · rw [hs] at h
            cases b2 with
            | false => exact ⟨rfl, rfl⟩
            | true =>
              exfalso
              rcases hq : queryLoop tr m qs (forceOptions opts0) fuel
                  ⟨[], "", Int.ofNat m, []⟩ with e | st
              · rw [hq] at h
                simp at h
                exact queryLoop_no_options_error tr m qs (forceOptions opts0)
                  fuel _ (h ▸ hq)
              · rw [hq] at h; simp at h
    · rintro ⟨hv, hs⟩
      rw [Query.execute_on, hv, hs]
  · intro opts0 m r qs rk hset
    have hin := hmem opts0 hset
    simp only [pageTokens, List.mem_append]
    exact Or.inl (Or.inr hin)

/-- Witness for C4: the characterization applied at server version 2.4.7 to
the default selection (no error) and to a selection with `--all-reviewers`
set (option-scoped error), plus the forced `--commit-message` token in a
concrete page command. -/
theorem C4_witness :
    Query.execute_on (queryParsed0.setattr "all_reviewers" (.bool true))
        "status:open" 0 ⟨2, 4, 7⟩ stub5 10 = .error .optionsNotSupported ∧
    "--commit-message" ∈ pageTokens 0 0 "status:open"
        (forceOptions queryParsed0) "" :=
  ⟨(C4_validation_before_forcing.1 (queryParsed0.setattr "all_reviewers"
      (.bool true)) "status:open" 0 ⟨2, 4, 7⟩ stub5 10).mpr
    ⟨by decide, by decide⟩,
   C4_validation_before_forcing.2.2 queryParsed0 0 0 "status:open" "" rfl⟩

/-- Helper: a failed option-compatibility scan always names an option that
is active in the selection (truthy value) and whose non-empty range excludes
the version. -/
theorem supportedInGo_false_active (d : List (String × PyVal)) (v : Version) :
    ∀ l : List OptionRepr, supportedInGo d v l = some false →
      ∃ opt ∈ l, opt.spec ≠ "" ∧ (dictGet d opt.key).truthy = true ∧
        versionInB v opt.spec = some false := by
  intro l
  induction l with
  | nil => intro h; simp [supportedInGo] at h
  | cons opt rest ih =>
    intro h
    rw [supportedInGo] at h
    split at h
    · rename_i hg
      rcases hsp : Spec.parse opt.spec with _ | terms
      · rw [hsp] at h
        simp at h
      · rw [hsp] at h
        simp at h
        by_cases hsm : specMatches v terms = true
        · obtain ⟨o, ho, hrest⟩ := ih (h hsm)
          exact ⟨o, List.mem_cons_of_mem _ ho, hrest⟩
        · simp only [Bool.and_eq_true, decide_eq_true_eq] at hg
          refine ⟨opt, List.mem_cons_self _ _, hg.1, hg.2, ?_⟩
          simp [versionInB, hsp, Bool.eq_false_iff.mpr hsm]
    · rename_i hg
      obtain ⟨o, ho, hrest⟩ := ih h
      exact ⟨o, List.mem_cons_of_mem _ ho, hrest⟩

/-- C5: the option-compatibility check rejects only options that were
actually set: any `False` verdict names an option with a truthy value and
an excluding range.  Concretely, against the query catalog (whose
`--all-reviewers` option is gated ">=2.9") and server version 2.4.7, the
default selection passes, whereas the same selection with `all_reviewers`
set fails and makes `execute_on` raise the option-scoped error. -/
theorem C5_unset_options_never_rejected :
    (∀ (p : ParsedOptions) (v : Version),
      p.supported_in v = some false →
        ∃ opt ∈ p.optionSet, opt.spec ≠ "" ∧
          (dictGet p.dict opt.key).truthy = true ∧
          versionInB v opt.spec = some false) ∧
    queryParsed0.supported_in ⟨2, 4, 7⟩ = some true ∧
    (queryParsed0.setattr "all_reviewers" (.bool true)).supported_in
        ⟨2, 4, 7⟩ = some false ∧
    Query.execute_on (queryParsed0.setattr "all_reviewers" (.bool true))
        "status:open" 0 ⟨2, 4, 7⟩ stub5 10 = .error .optionsNotSupported :=
  ⟨fun p v h => supportedInGo_false_active p.dict v p.optionSet h,
   by decide, by decide, by decide⟩

/-- Witness for C5: the attribution of a failed check, applied to the
selection that sets `all_reviewers` against server version 2.4.7. -/
theorem C5_witness :
    ∃ opt ∈ (queryParsed0.setattr "all_reviewers" (.bool true)).optionSet,
      opt.spec ≠ "" ∧
        (dictGet (queryParsed0.setattr "all_reviewers" (.bool true)).dict
          opt.key).truthy = true ∧
        versionInB ⟨2, 4, 7⟩ opt.spec = some false :=
  C5_unset_options_never_rejected.1
    (queryParsed0.setattr "all_reviewers" (.bool true)) ⟨2, 4, 7⟩ (by decide)

/-- Helper: `flatMap` only depends on the function's values on members. -/
theorem flatMap_congr_on {α β : Type} {f g : α → List β} :
    ∀ l : List α, (∀ a ∈ l, f a = g a) → l.flatMap f = l.flatMap g := by
  intro l
  induction l with
  | nil => intro _; rfl
  | cons a rest ih =>
    intro h
    simp only [List.flatMap_cons]
    rw [h a (List.mem_cons_self _ _), ih (fun x hx => h x (List.mem_cons_of_mem _ hx))]

/-- Helper: the compatibility scan only reads the values of catalog keys. -/
theorem supportedInGo_congr (d d2 : List (String × PyVal)) (v : Version) :
    ∀ l : List OptionRepr,
      (∀ opt ∈ l, dictGet d opt.key = dictGet d2 opt.key) →
      supportedInGo d v l = supportedInGo d2 v l := by
  intro l
  induction l with
  | nil => intro _; rfl
  | cons opt rest ih =>
    intro h
    rw [supportedInGo, supportedInGo,
      h opt (List.mem_cons_self _ _),
      ih (fun x hx => h x (List.mem_cons_of_mem _ hx))]

/-- C8 counterexample: on a `Query`'s parsed options, assigning under the
name `current_patch_set` — which is not a key of the query catalog — is
silently accepted (it lands in the instance `__dict__`) and is ignored by
both rendering and version checking; no error occurs.  This is precisely
the assignment `execute_on` itself performs. -/
theorem C8_counterexample :
    "current_patch_set" ∉ queryOptions.map (fun o => o.key) ∧
    alistGet? (queryParsed0.setattr "current_patch_set" (.bool true)).dict
        "current_patch_set" = some (.bool true) ∧
    (queryParsed0.setattr "current_patch_set" (.bool true)).renderTokens =
      queryParsed0.renderTokens ∧
    (queryParsed0.setattr "current_patch_set" (.bool true)).supported_in
        ⟨2, 9, 0⟩ = queryParsed0.supported_in ⟨2, 9, 0⟩ :=
  ⟨by decide, by decide, by decide, by decide⟩

/-- C8 (amended): setting, on a parsed selection, an option name that is
not among its catalog's keys never fails: the value is silently stored as
an instance attribute, and rendering and version checking are unchanged
(both read only catalog keys). -/
theorem C8_unknown_key_silently_accepted :
    ∀ (p : ParsedOptions) (name : String) (v : PyVal),
      name ∉ p.optionSet.map (fun o => o.key) →
        alistGet? (p.setattr name v).dict name = some v ∧
        (p.setattr name v).renderTokens = p.renderTokens ∧
        ∀ ver : Version,
          (p.setattr name v).supported_in ver = p.supported_in ver := by
  intro p name v hname
  have hkeys : ∀ opt ∈ p.optionSet, opt.key ≠ name := by
    intro opt hopt heq
    exact hname (List.mem_map.mpr ⟨opt, hopt, heq⟩)
  have hdict : ∀ opt ∈ p.optionSet,
      dictGet (p.setattr name v).dict opt.key = dictGet p.dict opt.key := by
    intro opt hopt
    simp only [ParsedOptions.setattr, dictGet]
    rw [alistGet?_set_ne _ _ _ _ (fun he => hkeys opt hopt he.symm)]
  refine ⟨alistGet?_set_self _ _ _, ?_, ?_⟩
  · rw [ParsedOptions.renderTokens, ParsedOptions.renderTokens]
    exact flatMap_congr_on _ (fun opt hopt => by rw [hdict opt hopt])
  · intro ver
    rw [ParsedOptions.supported_in, ParsedOptions.supported_in]
    exact supportedInGo_congr _ _ _ _ hdict

/-- Witness for C8: the amended statement applied to the query selection
and the non-catalog name `current_patch_set`. -/
theorem C8_witness :
    alistGet? (queryParsed0.setattr "current_patch_set" (.bool true)).dict
        "current_patch_set" = some (.bool true) ∧
      (queryParsed0.setattr "current_patch_set" (.bool true)).renderTokens =
        queryParsed0.renderTokens ∧
      ∀ ver : Version,
        (queryParsed0.setattr "current_patch_set" (.bool true)).supported_in
          ver = queryParsed0.supported_in ver :=
  C8_unknown_key_silently_accepted queryParsed0 "current_patch_set"
    (.bool true) (by decide)

/-- Helper: `initAll` preserves length. -/
theorem initAll_ok_length :
    ∀ (ls : List ReviewRaw) (rs : List Review),
      initAll ls = .ok rs → rs.length = ls.length := by
  intro ls
  induction ls with
  | nil => intro rs h; simp [initAll] at h; simp [h.symm]
  | cons x xs ih =>
    intro rs h
    rw [initAll] at h
    rcases hx : Review.init x with e | r
    · rw [hx] at h; simp at h
    · rw [hx] at h
      rcases hxs : initAll xs with e | rs2
      · rw [hxs] at h; simp at h
      · rw [hxs] at h
        simp at h
        rw [h.symm]
        simp [ih rs2 hxs]

/-- Helper: a page that yields no records decoded to at most one line. -/
theorem partialQuery_ok_nil (ls : List ReviewRaw) :
    partialQuery ls = .ok [] → ls.length ≤ 1 := by
  unfold partialQuery
  split
  · rename_i hlen
    intro h
    have hl := initAll_ok_length _ _ h
    simp [List.length_dropLast] at hl
    omega
  · rename_i hlen
    intro _
    omega

/-- Helper: a page with at most one decoded line yields no records. -/
theorem partialQuery_short (ls : List ReviewRaw) :
    ls.length ≤ 1 → partialQuery ls = .ok [] := by
  intro h
  unfold partialQuery
  rw [if_neg (by omega)]

/-- Helper: the loop stops at a page with at most one decoded line,
returning the accumulated records after logging that page's request. -/
theorem queryLoop_stop (tr : Nat → List ReviewRaw) (m : Nat) (qs : String)
    (o : ParsedOptions) (fuel : Nat) (st : EngineState)
    (hlen : (tr st.commands.length).length ≤ 1)
    (hcond : (m = 0 || st.result.length < m) = true) :
    queryLoop tr m qs o (fuel + 1) st =
      .ok ⟨st.result, st.resumeKey, st.remaining,
           st.commands ++ [pageTokens m st.remaining qs o st.resumeKey]⟩ := by
  rw [queryLoop, if_pos hcond, partialQuery_short _ hlen]

/-- Helper: in the unbounded case, successful loop termination happens only
at a page with at most one decoded line — the page answering the last
logged request. -/
theorem queryLoop_benign_final_page (tr : Nat → List ReviewRaw) (qs : String)
    (o : ParsedOptions) :
    ∀ (fuel : Nat) (st st2 : EngineState),
      queryLoop tr 0 qs o fuel st = .ok st2 →
      (tr (st2.commands.length - 1)).length ≤ 1 := by
  intro fuel
  induction fuel with
  | zero => intro st st2 h; simp [queryLoop] at h
  | succ n ih =>
    intro st st2 h
    rw [queryLoop] at h
    rw [if_pos (by simp)] at h
    rcases hp : partialQuery (tr st.commands.length) with e | rs
    · rw [hp] at h; simp at h
    · cases rs with
      | nil =>
        rw [hp] at h
        simp at h
        have hlen := partialQuery_ok_nil _ hp
        cases h
        simpa using hlen
      | cons r rs2 =>
        rw [hp] at h
        rcases hk : ((r :: rs2).getLast (by simp)).raw.sortKey with _ | k <;>
          simp [hk] at h
        exact ih _ _ h

/-- C1 counterexample: a first page that decodes to *zero* lines (not
exactly one) also terminates pagination benignly: the engine returns the
empty accumulated result after one page request, with no error — so the
exactly-one-line page is not the only non-error termination. -/
theorem C1_counterexample :
    (Query.execute_on queryParsed0 "status:open" 0 ⟨2, 9, 0⟩ emptyTransport 5).map
        (fun r => (r.1, r.2.length)) = .ok ([], 1) ∧
    (emptyTransport 0).length ≠ 1 :=
  ⟨by decide, by decide⟩

/-- C1 (amended): for every page, the last decoded line is excluded from
the results regardless of its content; a page that decodes to at most one
line (in particular exactly one: the terminator alone) ends the query: the
engine stops issuing page requests and returns the accumulated records; and
for an unbounded query this is the only non-error termination — a
successful run's final page always decoded to at most one line. -/
theorem C1_last_line_excluded_short_page_stops :
    (∀ (pre : List ReviewRaw) (a b : ReviewRaw),
      partialQuery (pre ++ [a]) = partialQuery (pre ++ [b])) ∧
    (∀ lines : List ReviewRaw, 1 < lines.length →
      partialQuery lines = initAll lines.dropLast) ∧
    (∀ lines : List ReviewRaw, lines.length ≤ 1 → partialQuery lines = .ok []) ∧
    (∀ (tr : Nat → List ReviewRaw) (m : Nat) (qs : String) (o : ParsedOptions)
        (fuel : Nat) (st : EngineState),
      (tr st.commands.length).length ≤ 1 →
      (m = 0 || st.result.length < m) = true →
      queryLoop tr m qs o (fuel + 1) st =
        .ok ⟨st.result, st.resumeKey, st.remaining,
             st.commands ++ [pageTokens m st.remaining qs o st.resumeKey]⟩) ∧
    (∀ (tr : Nat → List ReviewRaw) (qs : String) (o : ParsedOptions)
        (fuel : Nat) (st st2 : EngineState),
      queryLoop tr 0 qs o fuel st = .ok st2 →
      (tr (st2.commands.length - 1)).length ≤ 1) := by
  refine ⟨?_, ?_, partialQuery_short, queryLoop_stop, queryLoop_benign_final_page⟩
  · intro pre a b
    unfold partialQuery
    rw [List.dropLast_concat, List.dropLast_concat, List.length_append,
      List.length_append]
    simp
  · intro lines h
    unfold partialQuery
    rw [if_pos h]

/-- Witness for C1: the terminator-only page yields no records, and the
loop applied to a state facing such a page stops with the accumulated
result. -/
theorem C1_witness :
    partialQuery [termRec] = .ok [] ∧
    queryLoop emptyTransport 0 "status:open" queryParsed0 1 ⟨[], "", 0, []⟩ =
      .ok ⟨[], "", 0, [pageTokens 0 0 "status:open" queryParsed0 ""]⟩ ∧
    (emptyTransport 0).length ≤ 1 :=
  ⟨C1_last_line_excluded_short_page_stops.2.2.1 [termRec] (by decide),
   C1_last_line_excluded_short_page_stops.2.2.2.1 emptyTransport 0
     "status:open" queryParsed0 0 ⟨[], "", 0, []⟩ (by decide) (by decide),
   C1_last_line_excluded_short_page_stops.2.2.2.2 emptyTransport
     "status:open" queryParsed0 5 ⟨[], "", 0, []⟩
     ⟨[], "", 0, [pageTokens 0 0 "status:open" queryParsed0 ""]⟩ (by decide)⟩

/-- Helper: membership in an updated association list. -/
theorem mem_alistSet {α β : Type} [DecidableEq α] :
    ∀ (d : List (α × β)) (k : α) (v : β) (kp : α × β),
      kp ∈ alistSet d k v → kp = (k, v) ∨ kp ∈ d := by
  intro d k v
  induction d with
  | nil => intro kp h; simp [alistSet] at h; exact Or.inl h
  | cons kv rest ih =>
    intro kp h
    rw [alistSet] at h
    by_cases h1 : kv.1 = k
    · rw [if_pos h1] at h
      rcases List.mem_cons.mp h with h2 | h2
      · exact Or.inl h2
      · exact Or.inr (List.mem_cons_of_mem _ h2)
    · rw [if_neg h1] at h
      rcases List.mem_cons.mp h with h2 | h2
      · exact Or.inr (h2 ▸ List.mem_cons_self _ _)
      · rcases ih kp h2 with h3 | h3
        · exact Or.inl h3
        · exact Or.inr (List.mem_cons_of_mem _ h3)

/-- Helper: folding patchsets into the dict only inserts pairs keyed by the
patchset's own number. -/
theorem psFold_mem :
    ∀ (ps : List PatchsetRaw) (d : List (Int × PatchsetRaw))
      (kp : Int × PatchsetRaw),
      kp ∈ ps.foldl (fun d p => alistSet d p.number p) d →
      kp.2.number = kp.1 ∨ kp ∈ d := by
  intro ps
  induction ps with
  | nil => intro d kp h; exact Or.inr h
  | cons p rest ih =>
    intro d kp h
    rcases ih _ kp h with h2 | h2
    · exact Or.inl h2
    · rcases mem_alistSet _ _ _ _ h2 with h3 | h3
      · rw [h3]; exact Or.inl rfl
      · exact Or.inr h3

/-- Helper: each entry of the patchset dict is keyed by its patchset's
number. -/
theorem psDict_numbers (raw : ReviewRaw) :
    ∀ kp ∈ psDict raw, kp.2.number = kp.1 := by
  intro kp h
  rw [psDict] at h
  rcases hc : raw.currentPatchSet with _ | c
  · rw [hc] at h
    rcases psFold_mem _ _ _ h with h2 | h2
    · exact h2
    · simp at h2
  · rw [hc] at h
    rcases mem_alistSet _ _ _ _ h with h2 | h2
    · rw [h2]
    · rcases psFold_mem _ _ _ h2 with h3 | h3
      · exact h3
      · simp at h3

/-- Helper: `maxKey` of the empty dict only. -/
theorem maxKey_none : ∀ d : List (Int × PatchsetRaw),
    maxKey d = Option.none → d = [] := by
  intro d
  cases d with
  | nil => intro _; rfl
  | cons kv rest =>
    rw [maxKey]
    cases maxKey rest <;> simp

/-- Helper: the maximum key of a dict is one of its keys and bounds them
all. -/
theorem maxKey_spec :
    ∀ (d : List (Int × PatchsetRaw)) (m : Int), maxKey d = some m →
      m ∈ alistKeys d ∧ ∀ k ∈ alistKeys d, k ≤ m := by
  intro d
  induction d with
  | nil => intro m h; simp [maxKey] at h
  | cons kv rest ih =>
    intro m h
    rw [maxKey] at h
    rcases hm : maxKey rest with _ | m2
    · rw [hm] at h
      simp at h
      have hrest := maxKey_none rest hm
      subst hrest
      refine ⟨by simp [alistKeys, h], ?_⟩
      intro k hk
      simp [alistKeys] at hk
      omega
    · rw [hm] at h
      simp at h
      obtain ⟨hmem, hub⟩ := ih m2 hm
      constructor
      · rcases max_choice kv.1 m2 with hx | hx
        · rw [← h, hx]; simp [alistKeys]
        · rw [← h, hx]
          simp only [alistKeys, List.map_cons]
          exact List.mem_cons_of_mem _ hmem
      · intro k hk
        simp only [alistKeys, List.map_cons] at hk
        rcases List.mem_cons.mp hk with h2 | h2
        · rw [← h, h2]; exact le_max_left _ _
        · exact le_trans (hub k h2) (h ▸ le_max_right kv.1 m2)

/-- Helper: a key of an association list has a binding. -/
theorem alistGet?_some_of_mem_keys {α β : Type} [DecidableEq α] :
    ∀ (d : List (α × β)) (k : α), k ∈ alistKeys d →
      ∃ v, alistGet? d k = some v := by
  intro d
  induction d with
  | nil => intro k h; simp [alistKeys] at h
  | cons kv rest ih =>
    intro k h
    by_cases h1 : kv.1 = k
    · exact ⟨kv.2, by simp [alistGet?, h1]⟩
    · simp only [alistKeys, List.map_cons] at h
      rcases List.mem_cons.mp h with h2 | h2
      · exact absurd h2.symm h1
      · obtain ⟨v, hv⟩ := ih k h2
        exact ⟨v, by simp [alistGet?, h1, hv]⟩

/-- C10: a `Review` is constructed only from raw JSON carrying a `url` and
at least one patchset; every constructed `Review` has a non-empty patchset
dict keyed by the integer patchset numbers, its highest patchset number is
the maximum key (with the `currentPatchSet` entry overriding a same-number
`patchSets` entry), and `highest_patchset` looks up successfully at that
key; with no patchsets at all, construction raises instead. -/
theorem C10_review_construction :
    (∀ (raw : ReviewRaw) (r : Review), Review.init raw = .ok r →
      raw.url ≠ Option.none ∧
      ¬(raw.patchSets.getD [] = [] ∧ raw.currentPatchSet = Option.none) ∧
      r.patchsets ≠ [] ∧
      (∀ kp ∈ r.patchsets, kp.2.number = kp.1) ∧
      r.highestPatchSetNumber ∈ alistKeys r.patchsets ∧
      (∀ k ∈ alistKeys r.patchsets, k ≤ r.highestPatchSetNumber) ∧
      (∀ c, raw.currentPatchSet = some c →
        alistGet? r.patchsets c.number = some c) ∧
      (∃ ps, Review.highest_patchset r = some ps)) ∧
    (∀ raw : ReviewRaw, raw.patchSets.getD [] = [] →
      raw.currentPatchSet = Option.none →
      ∀ r : Review, Review.init raw ≠ .ok r) := by
  have hmain : ∀ (raw : ReviewRaw) (r : Review), Review.init raw = .ok r →
      raw.url ≠ Option.none ∧
      ¬(raw.patchSets.getD [] = [] ∧ raw.currentPatchSet = Option.none) ∧
      r.patchsets ≠ [] ∧
      (∀ kp ∈ r.patchsets, kp.2.number = kp.1) ∧
      r.highestPatchSetNumber ∈ alistKeys r.patchsets ∧
      (∀ k ∈ alistKeys r.patchsets, k ≤ r.highestPatchSetNumber) ∧
      (∀ c, raw.currentPatchSet = some c →
        alistGet? r.patchsets c.number = some c) ∧
      (∃ ps, Review.highest_patchset r = some ps) := by
    intro raw r h
    rw [Review.init] at h
    rcases hu : raw.url with _ | u
    · rw [hu] at h; simp at h
    · rw [hu] at h
      rcases hm : maxKey (psDict raw) with _ | m
      · rw [hm] at h; simp at h
      · rw [hm] at h
        simp at h
        obtain ⟨hmem, hub⟩ := maxKey_spec _ _ hm
        subst h
        refine ⟨by simp [hu], ?_, ?_, psDict_numbers raw, hmem, hub, ?_, ?_⟩
        · rintro ⟨he, hcn⟩
          rw [psDict, hcn, he] at hm
          simp [maxKey] at hm
        · intro hemp
          simp only at hemp
          rw [hemp] at hm
          simp [maxKey] at hm
        · intro c hcc
          show alistGet? (psDict raw) c.number = some c
          rw [psDict, hcc]
          exact alistGet?_set_self _ _ _
        · exact alistGet?_some_of_mem_keys _ _ hmem
  exact ⟨hmain, fun raw he hcn r hok => (hmain raw r hok).2.1 ⟨he, hcn⟩⟩

/-- Concrete raw review for the C10 witness: two numbered patchsets plus a
current patchset overriding number 2. -/
def c10raw : ReviewRaw :=
  ⟨some "http://gerrit.example.com/1", some [⟨1, "a"⟩, ⟨2, "b"⟩],
   some ⟨2, "c"⟩, Option.none⟩

/-- The review `c10raw` constructs to. -/
def c10rev : Review :=
  ⟨c10raw, [(1, ⟨1, "a"⟩), (2, ⟨2, "c"⟩)], 2⟩

/-- Witness for C10: the construction contract applied to a concrete raw
review with a same-number override, plus the no-patchsets rejection at the
terminator record. -/
theorem C10_witness :
    (∀ c, c10raw.currentPatchSet = some c →
      alistGet? c10rev.patchsets c.number = some c) ∧
    (∃ ps, Review.highest_patchset c10rev = some ps) ∧
    Review.init termRec ≠ .ok c10rev :=
  ⟨((C10_review_construction.1 c10raw c10rev (by decide)).2.2.2.2.2.2.1),
   ((C10_review_construction.1 c10raw c10rev (by decide)).2.2.2.2.2.2.2),
   C10_review_construction.2 termRec (by decide) (by decide) c10rev⟩

/-- C6 counterexample: a valued option parsed from a quoted two-word value
round-trips to a parse error.  `parse("--reason 'hello world'")` yields the
value `hello world`; rendering produces `--reason hello world`; re-parsing
that rendered string against the same catalog fails (the second word is an
unrecognized trailing token), so the round-trip does not yield an
equivalent Selection. -/
theorem C6_counterexample :
    (CmdOptionParser.parse banCommitOptions "--reason 'hello world'").map
        (fun p => p.dict) = .ok [("reason", .str "hello world")] ∧
    (CmdOptionParser.parse banCommitOptions "--reason 'hello world'").map
        (fun p => p.render) = .ok "--reason hello world" ∧
    CmdOptionParser.parse banCommitOptions "--reason hello world" =
      .error (.unrecognized "world") :=
  ⟨by decide, by decide, by decide⟩

/-! ## Round-trip vocabulary for C6 -/

/-- Characters shell splitting passes through verbatim. -/
def isPlainChar (c : Char) : Bool :=
  !(isShSpace c || c = '\'' || c = '"')

/-- A flag string that survives joining and re-splitting. -/
def plainToken (s : String) : Bool :=
  !s.data.isEmpty && s.data.all isPlainChar

/-- A value token that survives joining and re-splitting and cannot be
mistaken for an option: nonempty, plain characters only, no leading dash. -/
def plainWord (s : String) : Bool :=
  plainToken s && !startsWithDash s

/-- Well-formed catalog: distinct dest keys; long flags are plain
dash-initial tokens; and a long flag resolves to its own option only (the
flag-string uniqueness argparse enforces when the parser is built). -/
@[reducible]
def catalogWF (cat : List OptionRepr) : Prop :=
  (cat.map (fun o => o.key)).Nodup ∧
  (∀ o ∈ cat, plainToken o.long = true ∧ startsWithDash o.long = true) ∧
  (∀ o ∈ cat, ∀ o2 ∈ cat, tokMatches o2 o.long = true → o2 = o)

/-- A stored value fit for its option: the shape argparse produces for that
option kind, with every string a plain single word (and a legal choice).
Repeatable-flag counts above 1 are excluded: they render as a single flag
and cannot round-trip. -/
def plainValB (o : OptionRepr) (v : PyVal) : Bool :=
  match o.type, o.repeatable, v with
  | .flag, false, .bool _ => true
  | .flag, true, .none => true
  | .flag, true, .int n => n ≤ 1
  | .choice, false, .str s => s = "" || (plainWord s && o.choices.contains s)
  | .valued, false, .str s => s = "" || plainWord s
  | .choice, false, .none => true
  | .valued, false, .none => true
  | .choice, true, .none => true
  | .valued, true, .none => true
  | .choice, true, .list xs => xs.all (fun s => plainWord s && o.choices.contains s)
  | .valued, true, .list xs => xs.all plainWord
  | _, _, _ => false

/-- Every catalog option's stored value is plain (see `plainValB`). -/
def selPlain (p : ParsedOptions) : Bool :=
  p.optionSet.all (fun o => plainValB o (dictGet p.dict o.key))

/-- Equivalence of option values up to normalization of absent values: an
active (truthy) value must be preserved exactly; an inactive one may
normalize to any inactive representation. -/
def valEquiv (v w : PyVal) : Prop :=
  if v.truthy = true then v = w else w.truthy = false

/-! ## Shell-split/join round trip -/

/-- Helper: scanning a run of plain characters extends the open token. -/
theorem shlexGo_word :
    ∀ t : List Char, t.all isPlainChar = true →
      ∀ (cs cur : List Char) (acc : List String),
        shlexGo (t ++ cs) .norm (some cur) acc =
          shlexGo cs .norm (some (cur ++ t)) acc := by
  intro t
  induction t with
  | nil => intro _ cs cur acc; simp
  | cons c t2 ih =>
    intro h cs cur acc
    simp only [List.all_cons, Bool.and_eq_true] at h
    obtain ⟨hc, ht⟩ := h
    have hq : ¬(c = '\'') := by
      intro he; rw [he] at hc; simp [isPlainChar, isShSpace] at hc
    have hd : ¬(c = '"') := by
      intro he; rw [he] at hc; simp [isPlainChar, isShSpace] at hc
    have hs : ¬(isShSpace c = true) := by
      intro he; simp [isPlainChar, he] at hc
    rw [List.cons_append, shlexGo, if_neg hq, if_neg hd, if_neg hs]
    simp only [Option.getD_some]
    rw [ih ht cs (cur ++ [c]) acc]
    rw [List.append_assoc]
    rfl

/-- Helper: a space flushes the open token. -/
theorem shlexGo_space (cs : List Char) (t : List Char) (acc : List String) :
    shlexGo (' ' :: cs) .norm (some t) acc =
      shlexGo cs .norm Option.none (acc ++ [⟨t⟩]) := by
  rw [shlexGo, if_neg (by decide), if_neg (by decide), if_pos (by decide)]

/-- Helper: splitting a space-join of nonempty plain tokens recovers
exactly those tokens. -/
theorem shlexGo_join :
    ∀ toks : List (List Char),
      (∀ t ∈ toks, t ≠ [] ∧ t.all isPlainChar = true) →
      ∀ acc : List String,
        shlexGo (joinChars toks) .norm Option.none acc =
          .ok (acc ++ toks.map (fun t => (⟨t⟩ : String))) := by
  intro toks
  induction toks with
  | nil => intro _ acc; simp [joinChars, shlexGo]
  | cons t rest ih =>
    intro h acc
    obtain ⟨ht0, htp⟩ := h t (List.mem_cons_self _ _)
    rcases t with _ | ⟨c, t2⟩
    · exact absurd rfl ht0
    simp only [List.all_cons, Bool.and_eq_true] at htp
    obtain ⟨hc, ht2⟩ := htp
    have hq : ¬(c = '\'') := by
      intro he; rw [he] at hc; simp [isPlainChar, isShSpace] at hc
    have hd : ¬(c = '"') := by
      intro he; rw [he] at hc; simp [isPlainChar, isShSpace] at hc
    have hs : ¬(isShSpace c = true) := by
      intro he; simp [isPlainChar, he] at hc
    cases rest with
    | nil =>
      show shlexGo (c :: t2) .norm Option.none acc = _
      rw [shlexGo, if_neg hq, if_neg hd, if_neg hs]
      simp only [Option.getD_none, List.nil_append]
      have := shlexGo_word t2 ht2 [] [c] acc
      rw [List.append_nil] at this
      rw [this]
      rw [shlexGo]
      simp
    | cons t3 rest2 =>
      show shlexGo ((c :: t2) ++ ' ' :: joinChars (t3 :: rest2))
          .norm Option.none acc = _
      rw [List.cons_append, shlexGo, if_neg hq, if_neg hd, if_neg hs]
      simp only [Option.getD_none, List.nil_append]
      rw [shlexGo_word t2 ht2 (' ' :: joinChars (t3 :: rest2)) [c] acc]
      rw [shlexGo_space]
      simp only [List.singleton_append]
      rw [ih (fun x hx => h x (List.mem_cons_of_mem _ hx))
        (acc ++ [(⟨c :: t2⟩ : String)])]
      simp

/-! ## Re-parsing rendered tokens -/

/-- Helper: `find?` returns the unique matching element. -/
theorem find?_unique {α : Type} (p : α → Bool) :
    ∀ (l : List α) (a : α), a ∈ l → p a = true →
      (∀ b ∈ l, p b = true → b = a) → l.find? p = some a := by
  intro l
  induction l with
  | nil => intro a ha _ _; simp at ha
  | cons x rest ih =>
    intro a ha hpa huniq
    by_cases hx : p x = true
    · rw [List.find?_cons_of_pos _ hx, huniq x (List.mem_cons_self _ _) hx]
    · rw [List.find?_cons_of_neg _ (by simp [hx])]
      have ha2 : a ∈ rest := by
        rcases List.mem_cons.mp ha with h2 | h2
        · exact absurd (h2 ▸ hpa) hx
        · exact h2
      exact ih a ha2 hpa (fun b hb hpb => huniq b (List.mem_cons_of_mem _ hb) hpb)

/-- Helper: in a well-formed catalog a long flag resolves to its own
option. -/
theorem findOpt_long (cat : List OptionRepr) (hwf : catalogWF cat)
    (opt : OptionRepr) (hopt : opt ∈ cat) :
    cat.find? (fun o => tokMatches o opt.long) = some opt := by
  apply find?_unique _ cat opt hopt
  · simp [tokMatches]
  · intro b hb hpb
    exact hwf.2.2 opt hopt b hb hpb

/-- Helper: consecutive updates of the same key collapse. -/
theorem alistSet_set_same {α β : Type} [DecidableEq α] :
    ∀ (d : List (α × β)) (k : α) (v w : β),
      alistSet (alistSet d k v) k w = alistSet d k w := by
  intro d k v w
  induction d with
  | nil => simp [alistSet]
  | cons kv rest ih =>
    by_cases h1 : kv.1 = k
    · simp [alistSet, h1]
    · simp [alistSet, h1, ih]

/-- Helper: an inactive value renders no tokens. -/
theorem tokensFor_falsy (opt : OptionRepr) (v : PyVal)
    (h : v.truthy = false) : tokensFor opt v = [] := by
  unfold tokensFor
  split <;> simp [h]

/-- Helper: re-parsing the `(long, value)` pairs of a repeatable option
appends the values in order onto the running list. -/
theorem parseTokens_pairs (cat : List OptionRepr) (hwf : catalogWF cat)
    (opt : OptionRepr) (hopt : opt ∈ cat) (htc : opt.type = .choice ∨ opt.type = .valued)
    (hrep : opt.repeatable = true) :
    ∀ xs : List String,
      (∀ x ∈ xs, plainWord x = true ∧
        (opt.type = .choice → opt.choices.contains x = true)) →
      xs ≠ [] →
      ∀ (ts : List String) (d : List (String × PyVal)),
        parseTokens cat ((xs.flatMap fun x => [opt.long, x]) ++ ts) d =
          parseTokens cat ts
            (alistSet d opt.key (.list (curList (dictGet d opt.key) ++ xs))) := by
  intro xs
  induction xs with
  | nil => intro _ hne; exact absurd rfl hne
  | cons x xs2 ih =>
    intro hx _ ts d
    obtain ⟨hpw, hch⟩ := hx x (List.mem_cons_self _ _)
    have hnd : ¬(startsWithDash x = true) := by
      simp [plainWord, Bool.and_eq_true] at hpw
      simp [hpw.2]
    have hccond : ¬((decide (opt.type = OptType.choice) &&
        !(opt.choices.contains x)) = true) := by
      rcases htc with h | h
      · have hcc := hch h
        rw [h, hcc]
        simp
      · rw [h]
        simp
    have hstep : parseTokens cat (opt.long :: x :: ((xs2.flatMap fun y =>
        [opt.long, y]) ++ ts)) d = parseTokens cat ((xs2.flatMap fun y =>
        [opt.long, y]) ++ ts)
          (alistSet d opt.key (.list (curList (dictGet d opt.key) ++ [x]))) := by
      rw [parseTokens, findOpt_long cat hwf opt hopt]
      obtain ⟨ty, key, long, short, rep, choices, spec⟩ := opt
      simp only at htc hrep hnd hccond ⊢
      subst hrep
      rcases htc with h | h <;> subst h
      · simp [hnd, hch rfl]
        intro hmem
        exact absurd (by simpa using hch rfl) hmem
      · simp [hnd]
    simp only [List.flatMap_cons, List.cons_append, List.append_assoc,
      List.nil_append]
    rw [hstep]
    cases xs2 with
    | nil =>
      simp [List.flatMap_nil]
    | cons x2 xs3 =>
      rw [ih (fun y hy => hx y (List.mem_cons_of_mem _ hy)) (by simp) ts _]
      rw [show dictGet (alistSet d opt.key
            (.list (curList (dictGet d opt.key) ++ [x]))) opt.key
            = .list (curList (dictGet d opt.key) ++ [x]) by
          simp [dictGet, alistGet?_set_self]]
      rw [alistSet_set_same]
      simp [curList]

/-- Helper: re-parsing the tokens rendered for one plain option value,
starting from a dict that still holds that option's default, restores
exactly that value (and leaves the dict alone for inactive values). -/
theorem parseTokens_fragment (cat : List OptionRepr) (hwf : catalogWF cat)
    (opt : OptionRepr) (hopt : opt ∈ cat) (v : PyVal)
    (hv : plainValB opt v = true) :
    ∀ (ts : List String) (d : List (String × PyVal)),
      dictGet d opt.key = opt.defaultVal →
      parseTokens cat (tokensFor opt v ++ ts) d =
        parseTokens cat ts
          (if v.truthy = true then alistSet d opt.key v else d) := by
  intro ts d hdef
  obtain ⟨ty, key, long, short, rep, choices, spec⟩ := opt
  simp only at hdef hv ⊢
  cases ty <;> cases rep <;>
    rcases v with _ | b | n | s | xs <;>
      try (simp [plainValB] at hv; done)
  case mk.flag.false.bool =>
    cases b
    · rfl
    · rw [show tokensFor ⟨.flag, key, long, short, false, choices, spec⟩
          (.bool true) = [long] from rfl]
      rw [List.singleton_append, parseTokens, findOpt_long cat hwf _ hopt]
      simp [PyVal.truthy]
  case mk.flag.true.none => rfl
  case mk.flag.true.int =>
    rcases n with _ | _ | n
    · rfl
    · rw [show tokensFor ⟨.flag, key, long, short, true, choices, spec⟩
          (.int 1) = [long] from rfl]
      rw [List.singleton_append, parseTokens, findOpt_long cat hwf _ hopt]
      simp only [OptionRepr.defaultVal] at hdef
      simp [hdef, curCount, PyVal.truthy]
    · simp [plainValB] at hv
  case mk.choice.false.none => rfl
  case mk.choice.false.str =>
    by_cases hs0 : s = ""
    · subst hs0; rfl
    · simp [plainValB, hs0, Bool.and_eq_true] at hv
      have hnd : ¬(startsWithDash s = true) := by
        have h1 := hv.1
        simp [plainWord, Bool.and_eq_true] at h1
        simp [h1.2]
      have hcc : choices.contains s = true := by simpa using hv.2
      have htk : tokensFor ⟨.choice, key, long, short, false, choices, spec⟩
          (.str s) = [long, s] := by
        simp [tokensFor, PyVal.truthy, hs0]
      rw [htk]
      rw [show ([long, s] : List String) ++ ts = long :: s :: ts from rfl]
      rw [parseTokens, findOpt_long cat hwf _ hopt]
      simp [hnd, hcc, PyVal.truthy, hs0]
      intro hmem
      exact absurd hv.2 hmem
  case mk.choice.true.none => rfl
  case mk.choice.true.list =>
    cases xs with
    | nil => rfl
    | cons x xs2 =>
      simp [plainValB] at hv
      have hall : ∀ y ∈ x :: xs2, plainWord y = true ∧
          ((⟨.choice, key, long, short, true, choices, spec⟩ :
              OptionRepr).type = .choice →
            (⟨.choice, key, long, short, true, choices, spec⟩ :
              OptionRepr).choices.contains y = true) := by
        intro y hy
        rcases List.mem_cons.mp hy with h | h
        · subst h
          exact ⟨hv.1.1, fun _ => by simpa using hv.1.2⟩
        · exact ⟨(hv.2 y h).1, fun _ => by simpa using (hv.2 y h).2⟩
      rw [show tokensFor ⟨.choice, key, long, short, true, choices, spec⟩
          (.list (x :: xs2)) = (x :: xs2).flatMap (fun y => [long, y]) from rfl]
      rw [parseTokens_pairs cat hwf
        ⟨.choice, key, long, short, true, choices, spec⟩ hopt (Or.inl rfl) rfl
        (x :: xs2) hall (by simp) ts d]
      simp only [OptionRepr.defaultVal] at hdef
      simp [hdef, curList, PyVal.truthy]
  case mk.valued.false.none => rfl
  case mk.valued.false.str =>
    by_cases hs0 : s = ""
    · subst hs0; rfl
    · simp [plainValB, hs0] at hv
      have hnd : ¬(startsWithDash s = true) := by
        simp [plainWord, Bool.and_eq_true] at hv
        simp [hv.2]
      have htk : tokensFor ⟨.valued, key, long, short, false, choices, spec⟩
          (.str s) = [long, s] := by
        simp [tokensFor, PyVal.truthy, hs0]
      rw [htk]
      rw [show ([long, s] : List String) ++ ts = long :: s :: ts from rfl]
      rw [parseTokens, findOpt_long cat hwf _ hopt]
      simp [hnd, PyVal.truthy, hs0]
  case mk.valued.true.none => rfl
  case mk.valued.true.list =>
    cases xs with
    | nil => rfl
    | cons x xs2 =>
      simp [plainValB] at hv
      have hall : ∀ y ∈ x :: xs2, plainWord y = true ∧
          ((⟨.valued, key, long, short, true, choices, spec⟩ :
              OptionRepr).type = .choice →
            (⟨.valued, key, long, short, true, choices, spec⟩ :
              OptionRepr).choices.contains y = true) := by
        intro y hy
        rcases List.mem_cons.mp hy with h | h
        · subst h
          exact ⟨hv.1, fun hcontra => by simp at hcontra⟩
        · exact ⟨hv.2 y h, fun hcontra => by simp at hcontra⟩
      rw [show tokensFor ⟨.valued, key, long, short, true, choices, spec⟩
          (.list (x :: xs2)) = (x :: xs2).flatMap (fun y => [long, y]) from rfl]
      rw [parseTokens_pairs cat hwf
        ⟨.valued, key, long, short, true, choices, spec⟩ hopt (Or.inr rfl) rfl
        (x :: xs2) hall (by simp) ts d]
      simp only [OptionRepr.defaultVal] at hdef
      simp [hdef, curList, PyVal.truthy]

/-- The dict after storing every active value of `dsel` for the catalog
options `sub`, in order. -/
def updAll (dsel : List (String × PyVal)) :
    List OptionRepr → List (String × PyVal) → List (String × PyVal)
  | [], d => d
  | o :: rest, d =>
    updAll dsel rest
      (if (dictGet dsel o.key).truthy = true
       then alistSet d o.key (dictGet dsel o.key) else d)

/-- Helper: `updAll` leaves keys outside its option list untouched. -/
theorem updAll_untouched (dsel : List (String × PyVal)) :
    ∀ (sub : List OptionRepr) (d : List (String × PyVal)) (k : String),
      k ∉ sub.map (fun o => o.key) →
      dictGet (updAll dsel sub d) k = dictGet d k := by
  intro sub
  induction sub with
  | nil => intro d k _; rfl
  | cons o rest ih =>
    intro d k hk
    simp only [List.map_cons, List.mem_cons] at hk
    push_neg at hk
    rw [updAll, ih _ _ hk.2]
    split
    · simp only [dictGet]
      rw [alistGet?_set_ne _ _ _ _ (fun he => hk.1 he.symm)]
    · rfl

/-- Helper: the value `updAll` leaves at a catalog key. -/
theorem updAll_get (dsel : List (String × PyVal)) :
    ∀ (sub : List OptionRepr) (d : List (String × PyVal)) (o : OptionRepr),
      o ∈ sub → (sub.map (fun o => o.key)).Nodup →
      dictGet (updAll dsel sub d) o.key =
        (if (dictGet dsel o.key).truthy = true then dictGet dsel o.key
         else dictGet d o.key) := by
  intro sub
  induction sub with
  | nil => intro d o ho; simp at ho
  | cons o2 rest ih =>
    intro d o ho hnd
    simp only [List.map_cons, List.nodup_cons] at hnd
    rcases List.mem_cons.mp ho with h | h
    · subst h
      rw [updAll, updAll_untouched dsel rest _ _ hnd.1]
      split
      · simp [dictGet, alistGet?_set_self]
      · rfl
    · have hne : o2.key ≠ o.key := by
        intro he
        exact hnd.1 (he ▸ List.mem_map_of_mem _ h)
      rw [updAll, ih _ o h hnd.2]
      by_cases hco : (dictGet dsel o.key).truthy = true
      · rw [if_pos hco, if_pos hco]
      · rw [if_neg hco, if_neg hco]
        split
        · simp only [dictGet]
          rw [alistGet?_set_ne _ _ _ _ hne]
        · rfl

/-- Helper: the parse-time defaults dict holds each option's default. -/
theorem dictGet_initDict :
    ∀ cat : List OptionRepr, (cat.map (fun o => o.key)).Nodup →
      ∀ o ∈ cat, dictGet (initDict cat) o.key = o.defaultVal := by
  intro cat
  induction cat with
  | nil => intro _ o ho; simp at ho
  | cons o2 rest ih =>
    intro hnd o ho
    simp only [List.map_cons, List.nodup_cons] at hnd
    rcases List.mem_cons.mp ho with h | h
    · subst h
      simp [initDict, dictGet, alistGet?]
    · have hne : ¬(o2.key = o.key) := by
        intro he
        exact hnd.1 (he ▸ List.mem_map_of_mem _ h)
      show dictGet ((o2.key, o2.defaultVal) :: initDict rest) o.key = _
      simp only [dictGet, alistGet?]
      rw [if_neg hne]
      simpa [dictGet] using ih hnd.2 o h

/-- Helper: argparse defaults are inactive. -/
theorem defaultVal_falsy (o : OptionRepr) : (o.defaultVal).truthy = false := by
  rw [OptionRepr.defaultVal]
  split <;> rfl

/-- Helper: the catalog walk — re-parsing the concatenated fragments of all
catalog options stores exactly the active values over the defaults. -/
theorem parseTokens_render_walk (cat : List OptionRepr) (hwf : catalogWF cat)
    (dsel : List (String × PyVal)) :
    ∀ (sub : List OptionRepr) (d : List (String × PyVal)) (ts : List String),
      (∀ o ∈ sub, o ∈ cat) →
      (∀ o ∈ sub, plainValB o (dictGet dsel o.key) = true) →
      (∀ o ∈ sub, dictGet d o.key = o.defaultVal) →
      (sub.map (fun o => o.key)).Nodup →
      parseTokens cat
          ((sub.flatMap fun o => tokensFor o (dictGet dsel o.key)) ++ ts) d =
        parseTokens cat ts (updAll dsel sub d) := by
  intro sub
  induction sub with
  | nil => intro d ts _ _ _ _; rfl
  | cons o rest ih =>
    intro d ts hsub hplain hdef hnd
    simp only [List.map_cons, List.nodup_cons] at hnd
    simp only [List.flatMap_cons, List.append_assoc]
    rw [parseTokens_fragment cat hwf o (hsub o (List.mem_cons_self _ _))
      (dictGet dsel o.key) (hplain o (List.mem_cons_self _ _)) _ d
      (hdef o (List.mem_cons_self _ _))]
    rw [updAll]
    apply ih
    · exact fun o2 h2 => hsub o2 (List.mem_cons_of_mem _ h2)
    · exact fun o2 h2 => hplain o2 (List.mem_cons_of_mem _ h2)
    · intro o2 h2
      have hne : o.key ≠ o2.key := by
        intro he
        exact hnd.1 (he ▸ List.mem_map_of_mem _ h2)
      split
      · show dictGet (alistSet d o.key (dictGet dsel o.key)) o2.key = _
        simp only [dictGet]
        rw [alistGet?_set_ne _ _ _ _ hne]
        simpa [dictGet] using hdef o2 (List.mem_cons_of_mem _ h2)
      · exact hdef o2 (List.mem_cons_of_mem _ h2)
    · exact hnd.2

/-- Helper: decomposition of `plainToken`. -/
theorem plainToken_spec (s : String) (h : plainToken s = true) :
    s.data ≠ [] ∧ s.data.all isPlainChar = true := by
  simp [plainToken, Bool.and_eq_true] at h
  exact ⟨by simpa using h.1, by simpa [List.all_eq_true] using h.2⟩

/-- Helper: a plain word is a plain token. -/
theorem plainWord_plainToken (s : String) (h : plainWord s = true) :
    plainToken s = true := by
  simp only [plainWord, Bool.and_eq_true] at h
  exact h.1

/-- Helper: a token rendered for one option is its long flag, an active
string value, or an element of its list value. -/
theorem mem_tokensFor (o : OptionRepr) (v : PyVal) (t : String)
    (ht : t ∈ tokensFor o v) :
    t = o.long ∨ (∃ s, v = .str s ∧ t = s ∧ s ≠ "") ∨
      (∃ xs, v = .list xs ∧ t ∈ xs) := by
  obtain ⟨ty, key, long, short, rep, choices, spec⟩ := o
  simp only at ht ⊢
  cases ty
  case flag =>
    simp [tokensFor] at ht
    exact Or.inl ht.2
  case choice =>
    rcases v with _ | b | n | s | xs <;> simp [tokensFor, PyVal.truthy] at ht
    · rcases ht.2 with h | h
      · exact Or.inl h
      · exact Or.inr (Or.inl ⟨s, rfl, h, ht.1⟩)
    · obtain ⟨hne, x, hx, h2⟩ := ht
      rcases h2 with h | h
      · exact Or.inl h
      · exact Or.inr (Or.inr ⟨xs, rfl, h ▸ hx⟩)
  case valued =>
    rcases v with _ | b | n | s | xs <;> simp [tokensFor, PyVal.truthy] at ht
    · rcases ht.2 with h | h
      · exact Or.inl h
      · exact Or.inr (Or.inl ⟨s, rfl, h, ht.1⟩)
    · obtain ⟨hne, x, hx, h2⟩ := ht
      rcases h2 with h | h
      · exact Or.inl h
      · exact Or.inr (Or.inr ⟨xs, rfl, h ▸ hx⟩)

/-- Helper: every rendered token of a plain selection over a well-formed
catalog is a nonempty run of plain characters. -/
theorem renderTokens_plain (cat : List OptionRepr) (hwf : catalogWF cat)
    (sel : ParsedOptions) (hset : sel.optionSet = cat)
    (hplain : selPlain sel = true) :
    ∀ t ∈ sel.renderTokens, t.data ≠ [] ∧ t.data.all isPlainChar = true := by
  intro t ht
  rw [ParsedOptions.renderTokens, hset] at ht
  rw [List.mem_flatMap] at ht
  obtain ⟨o, ho, hto⟩ := ht
  have hpv : plainValB o (dictGet sel.dict o.key) = true := by
    rw [selPlain, List.all_eq_true] at hplain
    exact hplain o (by rw [hset]; exact ho)
  rcases mem_tokensFor o _ t hto with h | ⟨s, hvs, hts, hs0⟩ | ⟨xs, hvl, htx⟩
  · exact plainToken_spec _ (h ▸ (hwf.2.1 o ho).1)
  · subst hts
    apply plainToken_spec
    apply plainWord_plainToken
    obtain ⟨ty, key, long, short, rep, choices, spec⟩ := o
    simp only at hpv
    rw [hvs] at hpv
    cases ty <;> cases rep <;> simp [plainValB, hs0, Bool.and_eq_true] at hpv
    · exact hpv.1
    · exact hpv
  · apply plainToken_spec
    apply plainWord_plainToken
    obtain ⟨ty, key, long, short, rep, choices, spec⟩ := o
    simp only at hpv
    rw [hvl] at hpv
    cases ty <;> cases rep <;>
      simp [plainValB, List.all_eq_true, Bool.and_eq_true] at hpv
    · exact (hpv t htx).1
    · exact hpv t htx

/-- C6 (amended): the parse/render round trip holds for selections whose
stored values are plain single words (no whitespace or quote characters —
which shell splitting of the rendered string would tear apart — and no
repeatable-flag count above one, which renders as a single flag): re-parsing
the rendered string against the same well-formed catalog succeeds and
reproduces every option's value up to normalization of absent values. -/
theorem C6_parse_render_roundtrip :
    ∀ (cat : List OptionRepr) (s : String) (sel : ParsedOptions),
      catalogWF cat →
      CmdOptionParser.parse cat s = .ok sel →
      selPlain sel = true →
      ∃ sel2 : ParsedOptions,
        CmdOptionParser.parse cat sel.render = .ok sel2 ∧
        sel2.optionSet = cat ∧
        ∀ o ∈ cat, valEquiv (dictGet sel.dict o.key) (dictGet sel2.dict o.key) := by
  intro cat s sel hwf hparse hplain
  have hset : sel.optionSet = cat := by
    unfold CmdOptionParser.parse at hparse
    rcases h1 : shlexSplit s with e | toks
    · rw [h1] at hparse; simp at hparse
    · rw [h1] at hparse
      simp at hparse
      rcases h2 : parseTokens cat toks (initDict cat) with e | dd
      · rw [h2] at hparse; simp at hparse
      · rw [h2] at hparse
        simp at hparse
        rw [← hparse]
  have htoksplain : ∀ t ∈ sel.renderTokens,
      t.data ≠ [] ∧ t.data.all isPlainChar = true :=
    renderTokens_plain cat hwf sel hset hplain
  have hsplit : shlexSplit sel.render = .ok sel.renderTokens := by
    show shlexGo (sel.render).data .norm Option.none [] = _
    rw [show (sel.render).data =
        joinChars (sel.renderTokens.map (fun s2 => s2.data)) from rfl]
    rw [shlexGo_join (sel.renderTokens.map (fun s2 => s2.data)) ?_ []]
    · rw [List.map_map]
      rw [show ((fun t => ({ data := t } : String)) ∘ fun s2 => s2.data) = id by
        funext s2; rfl]
      rw [List.map_id]
      simp
    · intro t ht2
      rw [List.mem_map] at ht2
      obtain ⟨t2, ht2m, ht2e⟩ := ht2
      rw [← ht2e]
      exact htoksplain t2 ht2m
  have hplain2 : ∀ o ∈ cat, plainValB o (dictGet sel.dict o.key) = true := by
    intro o ho
    rw [selPlain, List.all_eq_true] at hplain
    exact hplain o (by rw [hset]; exact ho)
  have hdef : ∀ o ∈ cat, dictGet (initDict cat) o.key = o.defaultVal :=
    dictGet_initDict cat hwf.1
  have hwalk := parseTokens_render_walk cat hwf sel.dict cat (initDict cat) []
    (fun o h => h) hplain2 hdef hwf.1
  rw [List.append_nil] at hwalk
  refine ⟨⟨cat, updAll sel.dict cat (initDict cat)⟩, ?_, rfl, ?_⟩
  · unfold CmdOptionParser.parse
    rw [hsplit]
    show (match parseTokens cat sel.renderTokens (initDict cat) with
      | Except.error e => (Except.error e : Except ParseErr ParsedOptions)
      | Except.ok d => Except.ok (⟨cat, d⟩ : ParsedOptions)) =
        Except.ok (⟨cat, updAll sel.dict cat (initDict cat)⟩ : ParsedOptions)
    rw [show sel.renderTokens =
        cat.flatMap (fun o => tokensFor o (dictGet sel.dict o.key)) by
      rw [ParsedOptions.renderTokens, hset]]
    rw [hwalk]
    rfl
  · intro o ho
    show valEquiv (dictGet sel.dict o.key)
      (dictGet (updAll sel.dict cat (initDict cat)) o.key)
    rw [updAll_get sel.dict cat (initDict cat) o ho hwf.1]
    unfold valEquiv
    by_cases hco : (dictGet sel.dict o.key).truthy = true
    · rw [if_pos hco, if_pos hco]
    · rw [if_neg hco, if_neg hco, hdef o ho]
      exact defaultVal_falsy o

/-- Concrete parsed selection for the C6 witness: the `ls-groups` catalog
with a valued option, a flag, a choice and a repeatable valued option all
set. -/
def c6sel : ParsedOptions :=
  ⟨listGroupsOptions,
   [("project", .str "fred"), ("user", .none), ("visible_to_all", .bool true),
    ("type", .str "internal"), ("verbose", .bool false), ("owned", .bool false),
    ("q", .list ["a", "b"])]⟩

/-- Witness for C6: the round trip applied to a concrete parse of
"--project fred --visible-to-all --type internal -q a -q b" against the
`ls-groups` catalog. -/
theorem C6_witness :
    ∃ sel2 : ParsedOptions,
      CmdOptionParser.parse listGroupsOptions c6sel.render = .ok sel2 ∧
      sel2.optionSet = listGroupsOptions ∧
      ∀ o ∈ listGroupsOptions,
        valEquiv (dictGet c6sel.dict o.key) (dictGet sel2.dict o.key) :=
  C6_parse_render_roundtrip listGroupsOptions
    "--project fred --visible-to-all --type internal -q a -q b" c6sel
    (by decide) (by decide) (by decide)

end Gerritssh
